import Mathlib

/-!
Verification of `metaseq/integration/chipseq.py`.

This file gives a shallow embedding of the algorithmic core of the module:

* `xcorr` (chipseq.py lines 352-371): normalized cross-correlation of two
  equal-length signal vectors, with the `assert xlen == ylen` precondition
  modelled as an `Option` (`none` is the assertion failure).
* `estimate_shift` (lines 334-349): the coverage filter and the assembly of
  the cross-correlation matrix, given the plus- and minus-strand signal
  matrices returned by the external `signal.array` collaborator.
* `Chipseq.callback` (lines 222-237): the selection-event handler, embedded
  as a function from the bound feature list and row order plus the selected
  UI indices to a trace of observable actions.
* the reads-per-million normalization of `Chipseq.diff_array` (lines 153-159)
  and its keyword-argument handling (lines 148-151), and the in-place
  keyword-argument mutation of `estimate_shift` (lines 293-299).

Signal values are embedded as rationals; the normalized correlation values,
which in the source pass through `np.sqrt`, live in `ℝ`.
-/

namespace ChipseqPy

/-- Embedding of `np.dot(x, y)` for 1-D arrays: the sum of elementwise
products over the common length. -/
def npDot (x y : List ℚ) : ℚ :=
  ((x.zip y).map (fun p => p.1 * p.2)).sum

/-- Embedding of `np.correlate(x, y, mode=2)` (full mode): entry `k` of the
result (for `k < x.length + y.length - 1`) is the inner product of `x` with
`y` shifted by `(y.length - 1) - k`. -/
def npCorrelateFull (x y : List ℚ) : List ℚ :=
  (List.range (x.length + y.length - 1)).map (fun k =>
    if k ≤ y.length - 1 then npDot x (y.drop (y.length - 1 - k))
    else npDot (x.drop (k - (y.length - 1))) y)

/-- Clamp one bound of a Python slice `l[lo:hi]` to an index in `[0, n]`:
a negative bound counts from the end of the list. -/
def sliceBound (n : ℕ) (i : ℤ) : ℕ :=
  if i < 0 then (i + n).toNat else min i.toNat n

/-- Embedding of the Python slice `l[lo:hi]`. -/
def pySlice {α : Type} (l : List α) (lo hi : ℤ) : List α :=
  (l.take (sliceBound l.length hi)).drop (sliceBound l.length lo)

/-- Embedding of `xcorr(x, y, maxlags)` (chipseq.py lines 352-371): assert
equal lengths, take the full correlation, divide by
`sqrt(dot(x,x) * dot(y,y))`, and slice out `c[xlen-1-maxlags : xlen+maxlags]`.
The failed assertion is `none`. -/
noncomputable def xcorr (x y : List ℚ) (maxlags : ℕ) : Option (List ℝ) :=
  if x.length = y.length then
    some (pySlice
      ((npCorrelateFull x y).map
        (fun v : ℚ => (v : ℝ) / Real.sqrt ((npDot x x * npDot y y : ℚ) : ℝ)))
      ((x.length : ℤ) - 1 - maxlags) ((x.length : ℤ) + maxlags))
  else none

theorem npDot_self_nonneg (x : List ℚ) : 0 ≤ npDot x x := by
  induction x with
  | nil => simp [npDot]
  | cons a l ih =>
    have : npDot (a :: l) (a :: l) = a * a + npDot l l := by
      simp [npDot]
    rw [this]
    nlinarith [mul_self_nonneg a]

theorem length_npCorrelateFull (x y : List ℚ) :
    (npCorrelateFull x y).length = x.length + y.length - 1 := by
  simp [npCorrelateFull]

theorem get_npCorrelateFull_middle (x y : List ℚ) (n : ℕ) (hx : x.length = n)
    (hy : y.length = n) (hn : 0 < n) :
    (npCorrelateFull x y)[n - 1]? = some (npDot x y) := by
  have hlen : n - 1 < x.length + y.length - 1 := by omega
  simp only [npCorrelateFull, List.getElem?_map, List.getElem?_range hlen]
  have hcond : n - 1 ≤ y.length - 1 := by omega
  have hdrop : y.length - 1 - (n - 1) = 0 := by omega
  simp [hcond, hdrop]

theorem sliceBound_of_nonneg (n : ℕ) (i : ℤ) (h0 : 0 ≤ i) :
    sliceBound n i = min i.toNat n := by
  simp [sliceBound, not_lt.mpr h0]

/-- Core computation of the `xcorr` slice: under the precondition
`maxlags < n` the returned list is defined, has length `2*maxlags+1`, and
its `j`-th entry is entry `n-1-maxlags+j` of the normalized full
correlation. -/
theorem xcorr_eq (x y : List ℚ) (maxlags n : ℕ) (hx : x.length = n)
    (hy : y.length = n) (hn : 0 < n) (hm : maxlags < n) :
    ∃ vals, xcorr x y maxlags = some vals ∧
      vals.length = 2 * maxlags + 1 ∧
      ∀ j, j < 2 * maxlags + 1 →
        vals[j]? = ((npCorrelateFull x y).map
          (fun v : ℚ => (v : ℝ) / Real.sqrt ((npDot x x * npDot y y : ℚ) : ℝ)))[n - 1 - maxlags + j]? := by
  have hxy : x.length = y.length := by rw [hx, hy]
  have hlen : ((npCorrelateFull x y).map
      (fun v : ℚ => (v : ℝ) / Real.sqrt ((npDot x x * npDot y y : ℚ) : ℝ))).length
      = 2 * n - 1 := by
    rw [List.length_map, length_npCorrelateFull, hx, hy]; omega
  have hlo : sliceBound (2 * n - 1) ((x.length : ℤ) - 1 - maxlags)
      = n - 1 - maxlags := by
    rw [sliceBound_of_nonneg]
    · rw [hx]; omega
    · rw [hx]; omega
  have hhi : sliceBound (2 * n - 1) ((x.length : ℤ) + maxlags)
      = n + maxlags := by
    rw [sliceBound_of_nonneg]
    · rw [hx]; omega
    · rw [hx]; omega
  refine ⟨pySlice ((npCorrelateFull x y).map
      (fun v : ℚ => (v : ℝ) / Real.sqrt ((npDot x x * npDot y y : ℚ) : ℝ)))
      ((x.length : ℤ) - 1 - maxlags) ((x.length : ℤ) + maxlags), ?_, ?_, ?_⟩
  · unfold xcorr
    rw [if_pos hxy]
  · rw [pySlice, hlen, hlo, hhi, List.length_drop, List.length_take, hlen]
    omega
  · intro j hj
    rw [pySlice, hlen, hlo, hhi, List.getElem?_drop, List.getElem?_take,
      if_pos (by omega : n - 1 - maxlags + j < n + maxlags)]

/-- C6: for equal-length nonzero vectors `x` and `y` with `maxlags < n`,
`xcorr x y maxlags` is the centered slice (lags `-maxlags .. maxlags`) of
the full cross-correlation divided by `sqrt(dot(x,x) * dot(y,y))`; it has
length `2*maxlags+1`, its middle entry (lag 0) is
`dot(x,y) / sqrt(dot(x,x) * dot(y,y))`, and for `x = y` the middle entry
is `1`. -/
theorem xcorr_normalized_slice (x y : List ℚ) (maxlags n : ℕ)
    (hx : x.length = n) (hy : y.length = n) (hn : 0 < n) (hm : maxlags < n)
    (hxx : npDot x x ≠ 0) (hyy : npDot y y ≠ 0) :
    ∃ vals, xcorr x y maxlags = some vals ∧
      vals.length = 2 * maxlags + 1 ∧
      (∀ j, j < 2 * maxlags + 1 →
        vals[j]? = ((npCorrelateFull x y)[n - 1 - maxlags + j]?).map
          (fun v : ℚ => (v : ℝ) / Real.sqrt ((npDot x x * npDot y y : ℚ) : ℝ))) ∧
      vals[maxlags]? = some ((npDot x y : ℝ) /
        Real.sqrt ((npDot x x * npDot y y : ℚ) : ℝ)) ∧
      (x = y → vals[maxlags]? = some 1) := by
  obtain ⟨vals, hv, hlen, hget⟩ := xcorr_eq x y maxlags n hx hy hn hm
  have hget' : ∀ j, j < 2 * maxlags + 1 →
      vals[j]? = ((npCorrelateFull x y)[n - 1 - maxlags + j]?).map
        (fun v : ℚ => (v : ℝ) / Real.sqrt ((npDot x x * npDot y y : ℚ) : ℝ)) := by
    intro j hj
    rw [hget j hj, List.getElem?_map]
  have hmid : vals[maxlags]? = some ((npDot x y : ℝ) /
      Real.sqrt ((npDot x x * npDot y y : ℚ) : ℝ)) := by
    have h1 := hget' maxlags (by omega)
    have h2 : n - 1 - maxlags + maxlags = n - 1 := by omega
    rw [h1, h2, get_npCorrelateFull_middle x y n hx hy hn]
    rfl
  refine ⟨vals, hv, hlen, hget', hmid, ?_⟩
  intro hxyeq
  subst hxyeq
  rw [hmid]
  congr 1
  have hd0 : (0 : ℝ) ≤ (npDot x x : ℝ) := by
    exact_mod_cast npDot_self_nonneg x
  have hcast : ((npDot x x * npDot x x : ℚ) : ℝ)
      = (npDot x x : ℝ) * (npDot x x : ℝ) := by push_cast; ring
  rw [hcast, Real.sqrt_mul_self hd0]
  exact div_self (by exact_mod_cast hxx)

/-- Witness for C6 at `x = y = [1, 0]`, `maxlags = 1`: the precondition
holds and the middle entry of the self-correlation is `1`. -/
theorem xcorr_normalized_slice_w :
    (([1, 0] : List ℚ).length = 2 ∧ (0 : ℕ) < 2 ∧ 1 < 2 ∧
      npDot [1, 0] [1, 0] ≠ 0) ∧
    ∃ vals, xcorr [1, 0] [1, 0] 1 = some vals ∧ vals.length = 2 * 1 + 1 ∧
      vals[1]? = some 1 := by
  obtain ⟨vals, hv, hlen, _, _, hself⟩ :=
    xcorr_normalized_slice [1, 0] [1, 0] 1 2 rfl rfl (by decide) (by decide)
      (by norm_num [npDot]) (by norm_num [npDot])
  exact ⟨⟨rfl, by decide, by decide, by norm_num [npDot]⟩, vals, hv, hlen,
    hself rfl⟩

/-- C7: `xcorr` hits its assertion failure exactly when the two inputs have
different lengths; with equal lengths the error branch is unreachable. -/
theorem xcorr_assert_iff (x y : List ℚ) (maxlags : ℕ) :
    xcorr x y maxlags = none ↔ x.length ≠ y.length := by
  unfold xcorr
  split <;> simp_all

/-- Embedding of the coverage filter of `estimate_shift` (chipseq.py lines
335-336): a sampled window is kept when both the plus-strand and the
minus-strand average coverage (row sum over `windowsize`) strictly exceed
the threshold. -/
def enough (thresh windowsize : ℚ) (p m : List ℚ) : Bool :=
  decide (thresh < p.sum / windowsize) && decide (thresh < m.sum / windowsize)

/-- Embedding of `np.arange(-maxlag, maxlag + 1)` (chipseq.py line 347). -/
def lagsOf (maxlag : ℕ) : List ℤ :=
  (List.range (2 * maxlag + 1)).map (fun i : ℕ => (i : ℤ) - maxlag)

/-- Embedding of the assignment loop `results[i] = xcorr(x, y, maxlag)`
(chipseq.py lines 342-345): each kept window's row is computed by `xcorr`;
the numpy assignment into the preallocated `(·, 2*maxlag+1)` matrix fails
unless the assigned row has exactly `2*maxlag+1` entries. -/
noncomputable def xcorrRows : List (List ℚ × List ℚ) → ℕ → Option (List (List ℝ))
  | [], _ => some []
  | pm :: rest, maxlag =>
    match xcorr pm.1 pm.2 maxlag, xcorrRows rest maxlag with
    | some r, some rs =>
      if r.length = 2 * maxlag + 1 then some (r :: rs) else none
    | _, _ => none

/-- Embedding of the tail of `estimate_shift` (chipseq.py lines 334-349),
starting from the plus- and minus-strand signal matrices delivered by the
external `signal.array` collaborator: filter the windows through `enough`,
run `xcorr` on every kept window, and return the lag vector together with
the stacked correlation matrix. -/
noncomputable def estimate_shift (plus minus : List (List ℚ))
    (thresh windowsize : ℚ) (maxlag : ℕ) :
    Option (List ℤ × List (List ℝ)) :=
  match xcorrRows ((plus.zip minus).filter
      (fun pm => enough thresh windowsize pm.1 pm.2)) maxlag with
  | some rows => some (lagsOf maxlag, rows)
  | none => none

theorem length_lagsOf (maxlag : ℕ) :
    (lagsOf maxlag).length = 2 * maxlag + 1 := by
  simp [lagsOf]

theorem getElem_lagsOf (maxlag i : ℕ) (hi : i < 2 * maxlag + 1) :
    (lagsOf maxlag)[i]? = some ((i : ℤ) - maxlag) := by
  simp [lagsOf, List.getElem?_map, List.getElem?_range hi]

theorem xcorrRows_spec (l : List (List ℚ × List ℚ)) (maxlag b : ℕ)
    (hb : 0 < b) (hmax : maxlag < b)
    (hl : ∀ pm ∈ l, pm.1.length = b ∧ pm.2.length = b) :
    ∃ rows, xcorrRows l maxlag = some rows ∧ rows.length = l.length ∧
      ∀ r ∈ rows, r.length = 2 * maxlag + 1 := by
  induction l with
  | nil => exact ⟨[], rfl, rfl, by simp⟩
  | cons pm rest ih =>
    obtain ⟨h1, h2⟩ := hl pm (by simp)
    obtain ⟨r, hr, hrl, -⟩ := xcorr_eq pm.1 pm.2 maxlag b h1 h2 hb hmax
    obtain ⟨rows, hrows, hlen, hall⟩ := ih (fun q hq => hl q (by simp [hq]))
    refine ⟨r :: rows, ?_, by simp [hlen], ?_⟩
    · simp only [xcorrRows]
      rw [hr, hrows]
      simp [hrl]
    · intro s hs
      rcases List.mem_cons.mp hs with h | h
      · rw [h]; exact hrl
      · exact hall s h

theorem estimate_shift_spec (plus minus : List (List ℚ))
    (thresh windowsize : ℚ) (maxlag b : ℕ) (hb : 0 < b) (hmax : maxlag < b)
    (hp : ∀ r ∈ plus, r.length = b) (hm : ∀ r ∈ minus, r.length = b) :
    ∃ rows, estimate_shift plus minus thresh windowsize maxlag
        = some (lagsOf maxlag, rows) ∧
      rows.length = (plus.zip minus).countP
        (fun pm => enough thresh windowsize pm.1 pm.2) ∧
      ∀ r ∈ rows, r.length = 2 * maxlag + 1 := by
  have hl : ∀ pm ∈ (plus.zip minus).filter
      (fun pm => enough thresh windowsize pm.1 pm.2),
      pm.1.length = b ∧ pm.2.length = b := by
    rintro ⟨p, m⟩ hpm
    have hz := (List.mem_filter.mp hpm).1
    have hpmem := List.of_mem_zip hz
    exact ⟨hp p hpmem.1, hm m hpmem.2⟩
  obtain ⟨rows, hrows, hlen, hall⟩ := xcorrRows_spec _ maxlag b hb hmax hl
  refine ⟨rows, ?_, ?_, hall⟩
  · unfold estimate_shift
    rw [hrows]
  · rw [hlen, List.countP_eq_length_filter]

/-- C5: for valid inputs `estimate_shift` returns the lag vector
`-maxlag .. maxlag` (length `2*maxlag+1`) and a correlation matrix with
`2*maxlag+1` columns and one row per window that passed the coverage
filter, for any number of surviving windows including zero. -/
theorem estimate_shift_shape (plus minus : List (List ℚ))
    (thresh windowsize : ℚ) (maxlag b : ℕ) (hb : 0 < b) (hmax : maxlag < b)
    (hp : ∀ r ∈ plus, r.length = b) (hm : ∀ r ∈ minus, r.length = b) :
    ∃ lags rows, estimate_shift plus minus thresh windowsize maxlag
        = some (lags, rows) ∧
      lags.length = 2 * maxlag + 1 ∧
      (∀ i, i < 2 * maxlag + 1 → lags[i]? = some ((i : ℤ) - maxlag)) ∧
      rows.length = (plus.zip minus).countP
        (fun pm => enough thresh windowsize pm.1 pm.2) ∧
      ∀ r ∈ rows, r.length = 2 * maxlag + 1 := by
  obtain ⟨rows, h1, h2, h3⟩ :=
    estimate_shift_spec plus minus thresh windowsize maxlag b hb hmax hp hm
  exact ⟨lagsOf maxlag, rows, h1, length_lagsOf maxlag,
    fun i hi => getElem_lagsOf maxlag i hi, h2, h3⟩

/-- Witness for C5 on one window with zero coverage: no window passes the
threshold and the returned matrix has zero rows, without failure. -/
theorem estimate_shift_shape_w :
    ((0 : ℕ) < 2 ∧ (1 : ℕ) < 2 ∧
      (∀ r ∈ [[(0 : ℚ), 0]], r.length = 2) ∧
      (∀ r ∈ [[(0 : ℚ), 0]], r.length = 2)) ∧
    ∃ lags rows, estimate_shift [[(0 : ℚ), 0]] [[(0 : ℚ), 0]] 0 2 1
        = some (lags, rows) ∧
      lags.length = 2 * 1 + 1 ∧ rows.length = 0 := by
  obtain ⟨lags, rows, h1, h2, -, h4, -⟩ :=
    estimate_shift_shape [[(0 : ℚ), 0]] [[(0 : ℚ), 0]] 0 2 1 2 (by decide)
      (by decide) (by simp) (by simp)
  refine ⟨⟨by decide, by decide, by simp, by simp⟩, lags, rows, h1, h2, ?_⟩
  rw [h4]
  norm_num [enough, List.countP_cons]

/-- C4: a sampled window contributes a row to the matrix returned by
`estimate_shift` exactly when BOTH its plus-strand and its minus-strand
average coverage strictly exceed the threshold (a logical AND); a window
failing either condition contributes no row and is not zero-filled. -/
theorem estimate_shift_filter_and (plus minus : List (List ℚ))
    (thresh windowsize : ℚ) (maxlag b : ℕ) (hb : 0 < b) (hmax : maxlag < b)
    (hp : ∀ r ∈ plus, r.length = b) (hm : ∀ r ∈ minus, r.length = b) :
    ∃ rows, estimate_shift plus minus thresh windowsize maxlag
        = some (lagsOf maxlag, rows) ∧
      (∀ pm ∈ plus.zip minus,
        enough thresh windowsize pm.1 pm.2 = true ↔
          (thresh < pm.1.sum / windowsize ∧ thresh < pm.2.sum / windowsize)) ∧
      rows.length = (plus.zip minus).countP
        (fun pm => decide (thresh < pm.1.sum / windowsize)
          && decide (thresh < pm.2.sum / windowsize)) := by
  obtain ⟨rows, h1, h2, -⟩ :=
    estimate_shift_spec plus minus thresh windowsize maxlag b hb hmax hp hm
  refine ⟨rows, h1, ?_, h2⟩
  intro pm _
  simp [enough]

/-- Witness for C4 on a window whose minus-strand coverage is far above the
threshold while the plus-strand coverage is below it: the AND filter drops
the window, so the matrix has zero rows. -/
theorem estimate_shift_filter_and_w :
    ((1 : ℚ) < ([(10 : ℚ), 10].sum / 2) ∧
      ¬ ((1 : ℚ) < ([(0 : ℚ), 0].sum / 2))) ∧
    ∃ rows, estimate_shift [[(0 : ℚ), 0]] [[(10 : ℚ), 10]] 1 2 1
        = some (lagsOf 1, rows) ∧ rows.length = 0 := by
  obtain ⟨rows, h1, -, h3⟩ :=
    estimate_shift_filter_and [[(0 : ℚ), 0]] [[(10 : ℚ), 10]] 1 2 1 2
      (by decide) (by decide) (by simp) (by simp)
  refine ⟨⟨by norm_num, by norm_num⟩, rows, h1, ?_⟩
  rw [h3]
  norm_num [List.countP_cons]

/-- Observable actions of `Chipseq.callback`: the overselection notice
(line 231), the `print feature` of a resolved feature (line 235), and the
spawning of one mini-browser detail view (line 237). -/
inductive Action (α : Type) where
  | notice : Action α
  | printFeat : α → Action α
  | plot : α → Action α
  deriving DecidableEq

/-- Resolution of one UI pick index `i` (chipseq.py line 234): the feature
at row `ind[::-1][i]` of the bound feature list, where `ind` is the bound
row order. Out-of-range indexing is a Python `IndexError`, embedded as
`none`. -/
def resolveFeature {α : Type} (features : List α) (rowOrder : List ℕ)
    (i : ℕ) : Option α :=
  (rowOrder.reverse[i]?).bind (fun r => features[r]?)

/-- Resolution of a whole selection batch, in UI order. -/
def resolveAll {α : Type} (features : List α) (rowOrder : List ℕ) :
    List ℕ → Option (List α)
  | [] => some []
  | i :: rest =>
    (resolveFeature features rowOrder i).bind (fun f =>
      (resolveAll features rowOrder rest).map (fun fs => f :: fs))

/-- The loop body of `Chipseq.callback` (chipseq.py lines 233-237): each
selected index prints its resolved feature and, when the `browser` flag is
set, spawns one mini-browser plot for it. -/
def callbackBody {α : Type} (features : List α) (rowOrder : List ℕ)
    (browser : Bool) : List ℕ → Option (List (Action α))
  | [] => some []
  | i :: rest =>
    (resolveFeature features rowOrder i).bind (fun f =>
      (callbackBody features rowOrder browser rest).map (fun t =>
        Action.printFeat f :: (if browser then [Action.plot f] else []) ++ t))

/-- Embedding of `Chipseq.callback` (chipseq.py lines 222-237) as the trace
of observable actions for one selection event `sel` (the UI pick indices),
given the feature list and row order bound by `Chipseq.plot`: when more
than `limit = 5` indices are selected, the overselection notice is printed
and the browser flag is cleared; the loop still runs over every selected
index. -/
def callback {α : Type} (features : List α) (rowOrder : List ℕ)
    (sel : List ℕ) : Option (List (Action α)) :=
  (callbackBody features rowOrder (!decide (5 < sel.length)) sel).map
    (fun t => (if 5 < sel.length then [Action.notice] else []) ++ t)

/-- Recognizer for detail-view spawns in a callback trace. -/
def isPlot {α : Type} : Action α → Bool
  | Action.plot _ => true
  | _ => false

theorem callbackBody_false_no_plot {α : Type} (features : List α)
    (rowOrder : List ℕ) :
    ∀ (sel : List ℕ) (t : List (Action α)),
      callbackBody features rowOrder false sel = some t →
      ∀ f, Action.plot f ∉ t := by
  intro sel
  induction sel with
  | nil =>
    intro t ht f
    simp only [callbackBody, Option.some.injEq] at ht
    simp [← ht]
  | cons i rest ih =>
    intro t ht f
    simp only [callbackBody] at ht
    cases hres : resolveFeature features rowOrder i with
    | none => rw [hres] at ht; simp at ht
    | some g =>
      rw [hres] at ht
      cases hrec : callbackBody features rowOrder false rest with
      | none => rw [hrec] at ht; simp at ht
      | some t' =>
        rw [hrec] at ht
        simp only [Option.some_bind, Option.map_some',
          Option.some.injEq] at ht
        subst ht
        intro hmem
        simp at hmem
        exact ih t' hrec f hmem

theorem callbackBody_true_plot_mem {α : Type} (features : List α)
    (rowOrder : List ℕ) :
    ∀ (sel : List ℕ) (t : List (Action α)) (i : ℕ) (f : α),
      callbackBody features rowOrder true sel = some t → i ∈ sel →
      resolveFeature features rowOrder i = some f → Action.plot f ∈ t := by
  intro sel
  induction sel with
  | nil => intro t i f _ hi; simp at hi
  | cons j rest ih =>
    intro t i f ht hi hres
    simp only [callbackBody] at ht
    cases hj : resolveFeature features rowOrder j with
    | none => rw [hj] at ht; simp at ht
    | some g =>
      rw [hj] at ht
      cases hrec : callbackBody features rowOrder true rest with
      | none => rw [hrec] at ht; simp at ht
      | some t' =>
        rw [hrec] at ht
        simp only [Option.some_bind, Option.map_some',
          Option.some.injEq] at ht
        subst ht
        rcases List.mem_cons.mp hi with h | h
        · rw [h, hj] at hres
          injection hres with he
          subst he
          simp
        · have hmem := ih t' i f hrec h hres
          simp [hmem]

theorem callbackBody_true_filter {α : Type} (features : List α)
    (rowOrder : List ℕ) :
    ∀ (sel : List ℕ) (fs : List α) (t : List (Action α)),
      resolveAll features rowOrder sel = some fs →
      callbackBody features rowOrder true sel = some t →
      t.filter isPlot = fs.map Action.plot ∧ fs.length = sel.length := by
  intro sel
  induction sel with
  | nil =>
    intro fs t hfs ht
    simp only [resolveAll, Option.some.injEq] at hfs
    simp only [callbackBody, Option.some.injEq] at ht
    simp [← hfs, ← ht]
  | cons j rest ih =>
    intro fs t hfs ht
    simp only [resolveAll] at hfs
    simp only [callbackBody] at ht
    cases hj : resolveFeature features rowOrder j with
    | none => rw [hj] at hfs; simp at hfs
    | some g =>
      rw [hj] at hfs ht
      cases hfs' : resolveAll features rowOrder rest with
      | none => rw [hfs'] at hfs; simp at hfs
      | some fs' =>
        rw [hfs'] at hfs
        cases hrec : callbackBody features rowOrder true rest with
        | none => rw [hrec] at ht; simp at ht
        | some t' =>
          rw [hrec] at ht
          simp only [Option.some_bind, Option.map_some',
            Option.some.injEq] at hfs ht
          obtain ⟨hfilter, hlen⟩ := ih fs' t' hfs' hrec
          subst hfs
          subst ht
          constructor
          · simp [List.filter_cons, isPlot, hfilter]
          · simp [hlen]

/-- Counterexample to C1 as stated: on a selection of 6 indices the
callback emits the overselection notice and spawns no detail view, but it
does not stop there — it still resolves and prints every selected feature,
so the trace is not the notice alone. -/
theorem callback_overselection_cex :
    callback [0, 1, 2, 3, 4, 5] [0, 1, 2, 3, 4, 5] [0, 1, 2, 3, 4, 5]
      = some [Action.notice, Action.printFeat 5, Action.printFeat 4,
          Action.printFeat 3, Action.printFeat 2, Action.printFeat 1,
          Action.printFeat 0] ∧
    ([Action.notice, Action.printFeat 5, Action.printFeat 4,
      Action.printFeat 3, Action.printFeat 2, Action.printFeat 1,
      Action.printFeat 0] : List (Action ℕ)) ≠ [Action.notice] := by
  exact ⟨by decide, by decide⟩

/-- C1 (amended): on a selection of more than `limit = 5` indices the
callback emits the overselection notice first and spawns zero detail views
(no mini-browser plot occurs for any selected index), and the event is
processed to completion; however, it still prints each resolved feature
rather than performing no further action. -/
theorem callback_overselection {α : Type} (features : List α)
    (rowOrder : List ℕ) (sel : List ℕ) (hover : 5 < sel.length)
    (t : List (Action α)) (ht : callback features rowOrder sel = some t) :
    t.head? = some Action.notice ∧ ∀ f, Action.plot f ∉ t := by
  unfold callback at ht
  have hb : (!decide (5 < sel.length)) = false := by simp [hover]
  rw [hb, if_pos hover] at ht
  obtain ⟨t', ht', rfl⟩ := Option.map_eq_some'.mp ht
  have hnoplot := callbackBody_false_no_plot features rowOrder sel t' ht'
  constructor
  · simp
  · intro f
    simp only [List.cons_append, List.nil_append, List.mem_cons]
    rintro (h | h)
    · exact Action.noConfusion h
    · exact hnoplot f h

/-- Witness for C1 (amended) on the 6-index selection of the
counterexample. -/
theorem callback_overselection_w :
    (5 < ([0, 1, 2, 3, 4, 5] : List ℕ).length) ∧
    (([Action.notice, Action.printFeat 5, Action.printFeat 4,
       Action.printFeat 3, Action.printFeat 2, Action.printFeat 1,
       Action.printFeat 0] : List (Action ℕ)).head? = some Action.notice ∧
      ∀ f, Action.plot f ∉ ([Action.notice, Action.printFeat 5,
        Action.printFeat 4, Action.printFeat 3, Action.printFeat 2,
        Action.printFeat 1, Action.printFeat 0] : List (Action ℕ))) :=
  ⟨by decide, callback_overselection [0, 1, 2, 3, 4, 5] [0, 1, 2, 3, 4, 5]
    [0, 1, 2, 3, 4, 5] (by decide) _ rfl⟩

/-- Counterexample to C2 as stated: with feature list `[10, 20]`, row order
`[0, 1]` and the single selected UI index `0`, the claim resolves the index
to the feature at row `rowOrder(0) = 0`, namely `10`; the callback instead
resolves through the reversed row order and renders the detail view for
feature `20`, so no detail view for `10` occurs. -/
theorem callback_resolution_cex :
    callback [10, 20] [0, 1] [0]
      = some [Action.printFeat 20, Action.plot 20] ∧
    Action.plot 10 ∉ ([Action.printFeat 20, Action.plot 20] :
      List (Action ℕ)) := by
  exact ⟨by decide, by decide⟩

/-- C2 (amended): on a selection of at most 5 UI indices, each index `i` is
resolved through the REVERSED bound row order — the resolved feature is the
one at row `rowOrder(n - 1 - i)` where `n` is the length of the row order —
and the detail view spawned for index `i` is for exactly that feature. -/
theorem callback_resolution {α : Type} (features : List α)
    (rowOrder sel : List ℕ) (hsel : sel.length ≤ 5) (t : List (Action α))
    (ht : callback features rowOrder sel = some t) (i : ℕ) (hi : i ∈ sel)
    (hilt : i < rowOrder.length) (f : α)
    (hf : resolveFeature features rowOrder i = some f) :
    resolveFeature features rowOrder i
        = (rowOrder[rowOrder.length - 1 - i]?).bind (fun r => features[r]?) ∧
      Action.plot f ∈ t := by
  have h5 : ¬ (5 < sel.length) := not_lt.mpr hsel
  unfold callback at ht
  have hb : (!decide (5 < sel.length)) = true := by simp [h5]
  rw [hb, if_neg h5] at ht
  obtain ⟨t', ht', rfl⟩ := Option.map_eq_some'.mp ht
  constructor
  · unfold resolveFeature
    rw [List.getElem?_reverse hilt]
  · simp only [List.nil_append]
    exact callbackBody_true_plot_mem features rowOrder sel t' i f ht' hi hf

/-- Witness for C2 (amended): row order `[2, 0, 1]` over three features,
selection of index `1`, which resolves through the reversed row order to
row `0`, feature `10`. -/
theorem callback_resolution_w :
    (([1] : List ℕ).length ≤ 5 ∧ (1 : ℕ) ∈ ([1] : List ℕ) ∧
      1 < ([2, 0, 1] : List ℕ).length ∧
      resolveFeature [10, 20, 30] [2, 0, 1] 1 = some 10) ∧
    (resolveFeature [10, 20, 30] [2, 0, 1] 1
        = (([2, 0, 1] : List ℕ)[3 - 1 - 1]?).bind
          (fun r => ([10, 20, 30] : List ℕ)[r]?) ∧
      Action.plot 10 ∈ ([Action.printFeat 10, Action.plot 10] :
        List (Action ℕ))) :=
  ⟨⟨by decide, by decide, by decide, by decide⟩,
    callback_resolution [10, 20, 30] [2, 0, 1] [1] (by decide) _ rfl 1
      (by decide) (by decide) 10 (by decide)⟩

/-- C3: on a selection of `k ≤ 5` indices that all resolve, the callback
spawns exactly `k` detail views, one `minibrowser.plot` per resolved
feature, sequentially in the order the UI reported the indices. -/
theorem callback_plot_count {α : Type} (features : List α)
    (rowOrder sel : List ℕ) (hsel : sel.length ≤ 5) (fs : List α)
    (hres : resolveAll features rowOrder sel = some fs)
    (t : List (Action α)) (ht : callback features rowOrder sel = some t) :
    t.filter isPlot = fs.map Action.plot ∧ fs.length = sel.length := by
  have h5 : ¬ (5 < sel.length) := not_lt.mpr hsel
  unfold callback at ht
  have hb : (!decide (5 < sel.length)) = true := by simp [h5]
  rw [hb, if_neg h5] at ht
  obtain ⟨t', ht', rfl⟩ := Option.map_eq_some'.mp ht
  simp only [List.nil_append]
  exact callbackBody_true_filter features rowOrder sel fs t' hres ht'

/-- Witness for C3: three selected indices spawn exactly three detail
views, in UI order. -/
theorem callback_plot_count_w :
    (([0, 1, 2] : List ℕ).length ≤ 5 ∧
      resolveAll [10, 20, 30] [0, 1, 2] [0, 1, 2] = some [30, 20, 10]) ∧
    (([Action.printFeat 30, Action.plot 30, Action.printFeat 20,
       Action.plot 20, Action.printFeat 10, Action.plot 10] :
        List (Action ℕ)).filter isPlot
        = ([30, 20, 10] : List ℕ).map Action.plot ∧
      ([30, 20, 10] : List ℕ).length = ([0, 1, 2] : List ℕ).length) :=
  ⟨⟨by decide, by decide⟩,
    callback_plot_count [10, 20, 30] [0, 1, 2] [0, 1, 2] (by decide)
      [30, 20, 10] (by decide) _ rfl⟩

/-- Modelled from the spec: `SignalSource.million_mapped_reads()` — the
normalization divisor of the external signal-source collaborator, whose
implementation is outside this module — is the library size scaled to
millions, `library_size / 1e6` (reads-per-million scaling). -/
def million_mapped_reads (librarySize : ℚ) : ℚ := librarySize / 1000000

/-- Embedding of the reads-per-million normalization of `Chipseq.diff_array`
(chipseq.py lines 154-159): every element of a raw signal matrix is divided
in place by the signal source's million-mapped-reads value. -/
def normalize (raw : List (List ℚ)) (librarySize : ℚ) : List (List ℚ) :=
  raw.map (fun row => row.map (fun v => v / million_mapped_reads librarySize))

/-- C8: `normalize` divides every element by `library_size / 1e6`, its
output has the same shape as the raw input, and for a fixed raw array,
doubling the library size from `L` to `2 * L` halves every element of the
output. -/
theorem normalize_spec (raw : List (List ℚ)) (L : ℚ) (hL : L ≠ 0) :
    (normalize raw L).length = raw.length ∧
    (normalize raw L).map List.length = raw.map List.length ∧
    normalize raw L
      = raw.map (fun row => row.map (fun v => v / (L / 1000000))) ∧
    normalize raw (2 * L)
      = (normalize raw L).map (fun row => row.map (fun v => v / 2)) := by
  refine ⟨by simp [normalize], by simp [normalize], rfl, ?_⟩
  unfold normalize million_mapped_reads
  simp only [List.map_map]
  congr 1
  funext row
  simp only [Function.comp, List.map_map]
  congr 1
  funext v
  show v / (2 * L / 1000000) = v / (L / 1000000) / 2
  rw [div_div, div_eq_div_iff (by positivity) (by positivity)]
  ring

/-- Witness for C8 on the raw matrix `[[4]]` and library size `1e6`. -/
theorem normalize_spec_w :
    ((1000000 : ℚ) ≠ 0) ∧
    ((normalize [[4]] 1000000).length = ([[4]] : List (List ℚ)).length ∧
      (normalize [[4]] 1000000).map List.length
        = ([[4]] : List (List ℚ)).map List.length ∧
      normalize [[4]] 1000000
        = ([[4]] : List (List ℚ)).map
          (fun row => row.map (fun v => v / (1000000 / 1000000))) ∧
      normalize [[4]] (2 * 1000000)
        = (normalize [[4]] 1000000).map
          (fun row => row.map (fun v => v / 2))) :=
  ⟨by norm_num, normalize_spec [[4]] 1000000 (by norm_num)⟩

/-- Embedding of Python `dict.pop(key)` without a default, on an
association list with unique keys: the looked-up value and the dictionary
without the key, or `none` — a `KeyError` — when the key is absent. -/
def popKey (kw : List (String × ℤ)) (k : String) :
    Option (ℤ × List (String × ℤ)) :=
  match kw.lookup k with
  | some v => some (v, kw.filter (fun p => !(p.1 == k)))
  | none => none

/-- Embedding of the construction of `browser_local_coverage_kwargs` in
`Chipseq.diff_array` (chipseq.py lines 149-151): copy `array_kwargs`, then
unconditionally pop `processes` and `chunksize` from the copy. `none` is
the propagated `KeyError`. -/
def browser_local_coverage_kwargs (array_kwargs : List (String × ℤ)) :
    Option (List (String × ℤ)) :=
  (popKey array_kwargs "processes").bind (fun r =>
    (popKey r.2 "chunksize").map (fun r2 => r2.2))

theorem lookup_eq_none_iff (kw : List (String × ℤ)) (k : String) :
    kw.lookup k = none ↔ k ∉ kw.map Prod.fst := by
  induction kw with
  | nil => simp [List.lookup]
  | cons p rest ih =>
    obtain ⟨k', v⟩ := p
    by_cases h : k = k'
    · subst h
      simp [List.lookup]
    · have hbeq : (k == k') = false := beq_eq_false_iff_ne.mpr h
      simp only [List.lookup, hbeq, List.map_cons, List.mem_cons]
      rw [ih]
      constructor
      · intro hn hmem
        rcases hmem with h' | h'
        · exact h h'
        · exact hn h'
      · intro hn hmem
        exact hn (Or.inr hmem)

theorem popKey_eq_none_iff (kw : List (String × ℤ)) (k : String) :
    popKey kw k = none ↔ k ∉ kw.map Prod.fst := by
  constructor
  · intro hnone
    unfold popKey at hnone
    cases h : kw.lookup k with
    | none => exact (lookup_eq_none_iff kw k).mp h
    | some v => rw [h] at hnone; cases hnone
  · intro hmem
    unfold popKey
    rw [(lookup_eq_none_iff kw k).mpr hmem]

theorem mem_map_fst_filter_ne (kw : List (String × ℤ)) (k k0 : String)
    (hne : k ≠ k0) :
    k ∈ (kw.filter (fun p => !(p.1 == k0))).map Prod.fst ↔
      k ∈ kw.map Prod.fst := by
  simp only [List.mem_map, List.mem_filter]
  constructor
  · rintro ⟨p, ⟨hp, -⟩, hk⟩
    exact ⟨p, hp, hk⟩
  · rintro ⟨p, hp, hk⟩
    refine ⟨p, ⟨hp, ?_⟩, hk⟩
    simp [hk, hne]

/-- C9: the keyword preprocessing of `diff_array` fails with a `KeyError`
exactly when `array_kwargs` does not contain both the `processes` and the
`chunksize` keys (in particular under the default empty `array_kwargs`),
because both keys are popped unconditionally. -/
theorem diff_array_pop_keyerror (kw : List (String × ℤ)) :
    browser_local_coverage_kwargs kw = none ↔
      ¬ ("processes" ∈ kw.map Prod.fst ∧ "chunksize" ∈ kw.map Prod.fst) := by
  unfold browser_local_coverage_kwargs
  cases h1 : popKey kw "processes" with
  | none =>
    have h1' := (popKey_eq_none_iff kw "processes").mp h1
    simp [h1']
  | some r =>
    have h1' : "processes" ∈ kw.map Prod.fst := by
      by_contra hc
      rw [(popKey_eq_none_iff kw "processes").mpr hc] at h1
      cases h1
    have hr2 : r.2 = kw.filter (fun p => !(p.1 == "processes")) := by
      unfold popKey at h1
      cases h : kw.lookup "processes" with
      | none => rw [h] at h1; cases h1
      | some v =>
        rw [h] at h1
        injection h1 with h1
        rw [← h1]
    cases h2 : popKey r.2 "chunksize" with
    | none =>
      have h2' := (popKey_eq_none_iff r.2 "chunksize").mp h2
      rw [hr2, mem_map_fst_filter_ne kw "chunksize" "processes"
        (by decide)] at h2'
      simp [h2, h1', h2']
    | some r2 =>
      have h2' : "chunksize" ∈ r.2.map Prod.fst := by
        by_contra hc
        rw [(popKey_eq_none_iff r.2 "chunksize").mpr hc] at h2
        cases h2
      rw [hr2, mem_map_fst_filter_ne kw "chunksize" "processes"
        (by decide)] at h2'
      simp [h2, h1', h2']

/-- Embedding of the keyword-argument handling at the top of
`estimate_shift` (chipseq.py lines 293-299) as the state of the
caller-supplied `array_kwargs` dict after the call: the function pops
`read_strand` (with a default, so no error) and inserts
`bins = windowsize` when `bins` is absent, operating directly on the
caller's dict without copying it. -/
def estimate_shift_kwargs (kw : List (String × ℤ)) (windowsize : ℤ) :
    List (String × ℤ) :=
  let kw1 := kw.filter (fun p => !(p.1 == "read_strand"))
  if "bins" ∈ kw1.map Prod.fst then kw1 else kw1 ++ [("bins", windowsize)]

/-- Embedding of the keyword-argument handling of `Chipseq.diff_array`
(chipseq.py lines 148-151) as the pair (caller's dict after the call,
detail-view kwargs): the pops happen on `array_kwargs.copy()`, so the
caller's dict is handed back as received. -/
def diff_array_kwargs (array_kwargs : List (String × ℤ)) :
    List (String × ℤ) × Option (List (String × ℤ)) :=
  (array_kwargs, browser_local_coverage_kwargs array_kwargs)

theorem not_mem_map_fst_filter_self (kw : List (String × ℤ)) (k0 : String) :
    k0 ∉ (kw.filter (fun p => !(p.1 == k0))).map Prod.fst := by
  simp only [List.mem_map, List.mem_filter]
  rintro ⟨p, ⟨-, hp⟩, hk⟩
  simp [hk] at hp

theorem lookup_append_of_not_mem (l1 l2 : List (String × ℤ)) (k : String)
    (h : k ∉ l1.map Prod.fst) : (l1 ++ l2).lookup k = l2.lookup k := by
  induction l1 with
  | nil => rfl
  | cons p rest ih =>
    simp only [List.map_cons, List.mem_cons] at h
    push_neg at h
    have hbeq : (k == p.1) = false := beq_eq_false_iff_ne.mpr h.1
    simp [List.lookup, hbeq, ih h.2]

/-- C10: `estimate_shift` mutates the caller-supplied kwargs dict in place:
after a call on a dict that contains a `read_strand` entry and lacks
`bins`, the caller's dict has observably changed — the `read_strand` entry
is gone and `bins = windowsize` has been inserted — whereas `diff_array`
pops from a copy and leaves the caller's dict unchanged. -/
theorem estimate_shift_mutates_kwargs (kw : List (String × ℤ)) (ws : ℤ)
    (hrs : "read_strand" ∈ kw.map Prod.fst)
    (hb : "bins" ∉ kw.map Prod.fst) :
    estimate_shift_kwargs kw ws ≠ kw ∧
    "read_strand" ∉ (estimate_shift_kwargs kw ws).map Prod.fst ∧
    (estimate_shift_kwargs kw ws).lookup "bins" = some ws ∧
    (diff_array_kwargs kw).1 = kw := by
  have hbk1 : "bins" ∉
      (kw.filter (fun p => !(p.1 == "read_strand"))).map Prod.fst := by
    rw [mem_map_fst_filter_ne kw "bins" "read_strand" (by decide)]
    exact hb
  have heq : estimate_shift_kwargs kw ws
      = kw.filter (fun p => !(p.1 == "read_strand"))
        ++ [("bins", ws)] := by
    unfold estimate_shift_kwargs
    rw [if_neg hbk1]
  have hrs_not : "read_strand" ∉
      (estimate_shift_kwargs kw ws).map Prod.fst := by
    rw [heq]
    simp only [List.map_append, List.mem_append]
    rintro (h | h)
    · exact not_mem_map_fst_filter_self kw "read_strand" h
    · simp at h
  refine ⟨?_, hrs_not, ?_, rfl⟩
  · intro hcontra
    rw [hcontra] at hrs_not
    exact hrs_not hrs
  · rw [heq, lookup_append_of_not_mem _ _ _ hbk1]
    simp [List.lookup]

/-- Witness for C10 on the caller dict `[("read_strand", 1)]` with
`windowsize = 5000`. -/
theorem estimate_shift_mutates_kwargs_w :
    ("read_strand" ∈ ([("read_strand", 1)] : List (String × ℤ)).map Prod.fst ∧
      "bins" ∉ ([("read_strand", 1)] : List (String × ℤ)).map Prod.fst) ∧
    (estimate_shift_kwargs [("read_strand", 1)] 5000
        ≠ [("read_strand", 1)] ∧
      "read_strand" ∉
        (estimate_shift_kwargs [("read_strand", 1)] 5000).map Prod.fst ∧
      (estimate_shift_kwargs [("read_strand", 1)] 5000).lookup "bins"
        = some 5000 ∧
      (diff_array_kwargs [("read_strand", 1)]).1 = [("read_strand", 1)]) :=
  ⟨⟨by decide, by decide⟩,
    estimate_shift_mutates_kwargs [("read_strand", 1)] 5000 (by decide)
      (by decide)⟩

end ChipseqPy
